import Mathlib

/-
  Verification of src/scan-ip/check_ip_alive.py against its design spec.

  Shallow embedding: each Python function used by the claims is translated
  into a Lean definition over Nat / List / String.  IPv4 addresses are
  represented by their numeric value (a Nat < 2^32) where arithmetic matters,
  and by their dotted-quad text where the program handles text.
-/

/-! ## IPv4 text parsing (the subset of Python `ipaddress` the script uses)

`ipaddress.IPv4Address(s)` parses a dotted quad: exactly four octets
separated by dots, each octet 1–3 ASCII digits, no leading zero (except the
single digit "0"), value at most 255.  `ipaddress.IPv4Network(s, strict=False)`
splits on the first "/", parses the address part the same way and the prefix
part as a decimal integer in 0..32 (the netmask/hostmask spellings of the
prefix, which no claim touches, are not modelled), then clears the host bits.

Text is handled as the string's character list (Python strings are
character sequences), with `split`, `partition` and `strip` spelled out
structurally so that the model is executable down to the kernel. -/

/-- Python `str.split(sep)` on one separator character (no maxsplit):
always returns one (possibly empty) piece more than there are separators. -/
def splitOnChar (c : Char) : List Char → List (List Char)
  | [] => [[]]
  | x :: xs =>
    match splitOnChar c xs with
    | [] => [[]]
    | y :: ys => if x = c then [] :: y :: ys else (x :: y) :: ys

/-- Python `str.split(sep, 1)` / `str.partition(sep)`: split at the first
occurrence of the separator; `none` when the separator does not occur. -/
def splitFirst (c : Char) : List Char → Option (List Char × List Char)
  | [] => none
  | x :: xs =>
    if x = c then some ([], xs)
    else
      match splitFirst c xs with
      | some (l, r) => some (x :: l, r)
      | none => none

/-- Python `str.strip()` whitespace: the ASCII whitespace characters
(space, tab, newline, carriage return, vertical tab, form feed). -/
def isPySpace (c : Char) : Bool :=
  c = ' ' || c = '\t' || c = '\n' || c = '\r' || c = Char.ofNat 11 || c = Char.ofNat 12

/-- Python `str.strip()`: drop leading and trailing whitespace. -/
def trimChars (cs : List Char) : List Char :=
  ((cs.dropWhile isPySpace).reverse.dropWhile isPySpace).reverse

/-- Python `int(s, 10)` restricted, as `_prefix_from_prefix_string` uses it:
the string must be non-empty and all ASCII digits. -/
def digitsToNat (cs : List Char) : Option Nat :=
  if cs.isEmpty || !cs.all Char.isDigit then none
  else some (cs.foldl (fun n c => n * 10 + (c.toNat - 48)) 0)

/-- One dotted-quad octet, per CPython `_parse_octet`: non-empty, all ASCII
digits, at most 3 characters, no leading zero unless the octet is "0",
value at most 255. -/
def parseOctet (cs : List Char) : Option Nat :=
  if cs.length = 0 ∨ 3 < cs.length then none
  else if !cs.all Char.isDigit then none
  else if 1 < cs.length ∧ cs.headD '0' = '0' then none
  else
    let n := cs.foldl (fun n c => n * 10 + (c.toNat - 48)) 0
    if n ≤ 255 then some n else none

/-- `ipaddress.IPv4Address` on text: four octets joined by ".", returned as
the address's numeric value. -/
def parseIPv4Chars (cs : List Char) : Option Nat :=
  match splitOnChar '.' cs with
  | [a, b, c, d] =>
    match parseOctet a, parseOctet b, parseOctet c, parseOctet d with
    | some x, some y, some z, some w => some (((x * 256 + y) * 256 + z) * 256 + w)
    | _, _, _, _ => none
  | _ => none

/-- `ipaddress.IPv4Address` on a string. -/
def parseIPv4 (s : String) : Option Nat :=
  parseIPv4Chars s.data

/-- `str(ipaddress.IPv4Address(n))`: dotted-quad rendering of a numeric
address. -/
def ipToString (n : Nat) : String :=
  toString (n / 16777216 % 256) ++ "." ++ toString (n / 65536 % 256) ++ "." ++
    toString (n / 256 % 256) ++ "." ++ toString (n % 256)

/-- `IPv4Network(addr/p, strict=False).hosts()`, numerically.  The network
address is `addr` with its host bits cleared (strict=False keeps nonzero host
bits legal).  For prefixes up to /30, `hosts()` is every address strictly
between the network and broadcast addresses; CPython special-cases /31 and
/32 to return every address of the block, network and broadcast included. -/
def cidrHosts (addr p : Nat) : List Nat :=
  if 31 ≤ p then
    (List.range (2 ^ (32 - p))).map (fun i => addr - addr % 2 ^ (32 - p) + i)
  else
    (List.range (2 ^ (32 - p) - 2)).map
      (fun i => addr - addr % 2 ^ (32 - p) + 1 + i)

/-- The start half of a range spec: Python `ip_range.split('-', 1)[0].strip()`. -/
def rangeStartStr (s : String) : List Char :=
  trimChars (((splitFirst '-' s.data).map Prod.fst).getD s.data)

/-- The end half of a range spec: Python `ip_range.split('-', 1)[1].strip()`
(everything after the first "-", later dashes included). -/
def rangeEndStr (s : String) : List Char :=
  trimChars (((splitFirst '-' s.data).map Prod.snd).getD [])

/-- The body of `expand_ip_range`'s `try:` block (lines 98–124).  `.error`
marks a raised exception (caught by the function's `except` clause).

- CIDR branch: `IPv4Network(ip_range, strict=False)` then `hosts()`.
- Range branch: split on the first "-", strip, parse both ends; raise if
  start > end; then the `while current <= end_ip` loop appends
  `str(current)` and increments.  When `end` is 255.255.255.255 the final
  `current += 1` overflows 2^32 and `IPv4Address.__add__` raises
  AddressValueError, discarding the accumulated list — modelled as `.error`.
- Single branch: validate with `IPv4Address(ip_range)` and return the
  original string unchanged. -/
def expandCore (s : String) : Except String (List String) :=
  if s.data.contains '/' then
    match splitFirst '/' s.data with
    | some (a, pstr) =>
      match parseIPv4Chars a, digitsToNat pstr with
      | some addr, some p =>
          if p ≤ 32 then .ok ((cidrHosts addr p).map ipToString)
          else .error "prefix length out of range"
      | _, _ => .error "invalid CIDR"
    | none => .error "invalid CIDR"
  else if s.data.contains '-' then
    match parseIPv4Chars (rangeStartStr s), parseIPv4Chars (rangeEndStr s) with
    | some a, some b =>
        if b < a then .error "start IP is greater than end IP"
        else if b = 4294967295 then .error "address increment past 2^32"
        else .ok ((List.range (b + 1 - a)).map (fun i => ipToString (a + i)))
    | _, _ => .error "invalid address in range"
  else
    match parseIPv4Chars s.data with
    | some _ => .ok [s]
    | none => .error "invalid address"

/-- `expand_ip_range` (lines 83–128): the `try:` body with every exception
caught, reported to the console, and turned into the empty list. -/
def expand_ip_range (s : String) : List String :=
  match expandCore s with
  | .ok l => l
  | .error _ => []

/-! ## Probing and the parallel scan (`ping_ip`, `check_ips_parallel`)

The probe itself shells out to `ping` — an external capability.  It is
modelled as a function `probe : String → Bool × String` giving the
reachability verdict and detail message for an address; `ping_ip` wraps the
verdict into the `(ip, is_alive, message)` triple it returns. -/

/-- The `(ip_address, is_alive, message)` triple produced by `ping_ip`. -/
structure ProbeResult where
  address : String
  alive : Bool
  detail : String
deriving DecidableEq, Repr

/-- `ping_ip ip ...` (lines 31–80): the returned triple, with the probe
outcome supplied by the external capability `probe`. -/
def ping_ip (probe : String → Bool × String) (ip : String) : ProbeResult :=
  ⟨ip, (probe ip).1, (probe ip).2⟩

/-- `check_ips_parallel` (lines 162–203): one future is submitted per list
element (the dict is keyed by the future object, so duplicate addresses keep
distinct entries), and `as_completed` yields every future exactly once in a
nondeterministic completion order.  The completion order is modelled as an
explicit list of input positions; faithfulness requires it to be a
permutation of all positions, which the theorems take as a hypothesis. -/
def check_ips_parallel (probe : String → Bool × String) (ips : List String)
    (order : List (Fin ips.length)) : List ProbeResult :=
  order.map (fun i => ping_ip probe (ips.get i))

/-! ## Result aggregation (`print_results`)

`print_results` sorts the caller's list **in place** (`results.sort(...)`,
line 221), walks it printing one row per result while counting the alive
ones, and, when `show_summary` is set, prints
`alive_count/total_count` and `success_rate = alive/total*100`.  Its pure
denotation is the pair (list object after the call, summary emitted). -/

/-- Python string `<=`: lexicographic comparison by code point. -/
def charListLe : List Char → List Char → Bool
  | [], _ => true
  | _ :: _, [] => false
  | x :: xs, y :: ys =>
    if x = y then charListLe xs ys else decide (x < y)

/-- The sort key of line 221: compare results by their address text. -/
def addrLe (x y : ProbeResult) : Prop :=
  charListLe x.address.data y.address.data = true

instance : DecidableRel addrLe :=
  fun x y =>
    inferInstanceAs (Decidable (charListLe x.address.data y.address.data = true))

theorem charListLe_total : ∀ xs ys : List Char,
    charListLe xs ys = true ∨ charListLe ys xs = true := by
  intro xs
  induction xs with
  | nil => intro ys; left; rfl
  | cons x xs ih =>
    intro ys
    cases ys with
    | nil => right; rfl
    | cons y ys =>
      by_cases hxy : x = y
      · subst hxy
        simpa [charListLe] using ih ys
      · rcases lt_trichotomy x y with h | h | h
        · left; simp [charListLe, hxy, h]
        · exact absurd h hxy
        · right
          simp [charListLe, Ne.symm hxy, h]

theorem charListLe_trans : ∀ xs ys zs : List Char,
    charListLe xs ys = true → charListLe ys zs = true →
      charListLe xs zs = true := by
  intro xs
  induction xs with
  | nil => intro ys zs _ _; rfl
  | cons x xs ih =>
    intro ys zs h1 h2
    cases ys with
    | nil => simp [charListLe] at h1
    | cons y ys =>
      cases zs with
      | nil => simp [charListLe] at h2
      | cons z zs =>
        by_cases hxy : x = y <;> by_cases hyz : y = z
        · subst hxy; subst hyz
          simp only [charListLe, if_pos rfl] at h1 h2 ⊢
          exact ih ys zs h1 h2
        · subst hxy
          simpa [charListLe, hyz] using h2
        · subst hyz
          simpa [charListLe, hxy] using h1
        · simp only [charListLe, if_neg hxy, decide_eq_true_eq] at h1
          simp only [charListLe, if_neg hyz, decide_eq_true_eq] at h2
          have hxz : x < z := lt_trans h1 h2
          simp [charListLe, ne_of_lt hxz, hxz]

instance : IsTotal ProbeResult addrLe :=
  ⟨fun x y => charListLe_total x.address.data y.address.data⟩

instance : IsTrans ProbeResult addrLe :=
  ⟨fun _ _ _ hxy hyz => charListLe_trans _ _ _ hxy hyz⟩

/-- `results.sort(key=lambda x: x[0])`: a stable sort by address. -/
def sortResults (rs : List ProbeResult) : List ProbeResult :=
  rs.insertionSort addrLe

/-- The summary block printed when `show_summary` holds (lines 248–256). -/
structure ScanSummary where
  alive_count : Nat
  total_count : Nat
  success_rate : ℚ
deriving DecidableEq, Repr

/-- `print_results results show_summary` (lines 206–256): returns the
caller's list as it stands after the call together with the summary emitted
(`none` when the empty-input guard returns early, line 216–218, or when the
summary is suppressed). -/
def print_results (rs : List ProbeResult) (show_summary : Bool) :
    List ProbeResult × Option ScanSummary :=
  if rs.isEmpty then (rs, none)
  else
    let sorted := sortResults rs
    let alive := (sorted.filter (fun r => r.alive)).length
    let total := rs.length
    (sorted,
      if show_summary then some ⟨alive, total, (alive : ℚ) / (total : ℚ) * 100⟩
      else none)

/-! ## Round-robin monitor history (`round_robin_monitor`, lines 259–330)

Per cycle, each address's boolean reachability is appended to
`history[ip]`, and the oldest entry is popped when the window exceeds 10
(lines 299–302).  Cycles touch each address once, so an address's window
after n cycles is a fold of its per-cycle results. -/

/-- Lines 300–302: `history[ip].append(b); if len > 10: pop(0)`. -/
def updateHistory (h : List Bool) (b : Bool) : List Bool :=
  let h2 := h ++ [b]
  if 10 < h2.length then h2.tail else h2

/-- One address's HistoryWindow after its per-cycle results `rs` (window
starts empty, line 283). -/
def historyAfter (rs : List Bool) : List Bool :=
  rs.foldl updateHistory []

/-- One line of the monitor's final statistics table:
`ip: successful/total (uptime%)`. -/
structure FinalStat where
  address : String
  successful_checks : Nat
  total_checks : Nat
  uptime : ℚ
deriving DecidableEq, Repr

/-- The final-statistics table of the `except KeyboardInterrupt:` clause
(lines 320–330): one line per monitored address with a non-empty history,
computed from that address's HistoryWindow. -/
def final_statistics (ips : List String) (history : String → List Bool) :
    List FinalStat :=
  ips.filterMap (fun ip =>
    if (history ip).isEmpty then none
    else
      some ⟨ip, (history ip).count true, (history ip).length,
        (((history ip).count true : ℚ) / ((history ip).length : ℚ)) * 100⟩)

/-- The statistics emitted by `signal_handler` (lines 275–277): it prints
"Monitoring stopped by user" and calls `sys.exit(0)` — no statistics. -/
def signal_handler_stats : List FinalStat := []

/-- The final statistics the monitor emits when the user interrupts it
(SIGINT, e.g. Ctrl+C during the inter-cycle `time.sleep`).  Line 279
installs `signal_handler` as the SIGINT handler before the loop starts, so
an interrupt runs `signal_handler`, whose `sys.exit(0)` raises SystemExit;
SystemExit is not caught by the `except KeyboardInterrupt:` clause, so the
final-statistics block of lines 320–330 never runs. -/
def monitor_final_stats_on_interrupt (_ips : List String)
    (_history : String → List Bool) : List FinalStat :=
  signal_handler_stats

/-! ## Helper lemmas -/

/-- Folding cycle results into a window of at most 10 keeps exactly the last
10 entries of everything seen so far. -/
theorem foldl_updateHistory_drop (rs : List Bool) :
    ∀ h : List Bool, h.length ≤ 10 →
      List.foldl updateHistory h rs = (h ++ rs).drop ((h ++ rs).length - 10) := by
  induction rs with
  | nil =>
    intro h hle
    simp [Nat.sub_eq_zero_of_le hle]
  | cons b t ih =>
    intro h hle
    rw [List.foldl_cons]
    rcases Nat.lt_or_ge h.length 10 with hlt | hge
    · have hupd : updateHistory h b = h ++ [b] := by
        unfold updateHistory
        simp only [List.length_append, List.length_singleton]
        rw [if_neg (by omega)]
      rw [hupd, ih (h ++ [b]) (by simp; omega)]
      simp [List.append_assoc]
    · have h10 : h.length = 10 := le_antisymm hle hge
      cases h with
      | nil => simp at h10
      | cons x t0 =>
        have ht0 : t0.length = 9 := by simpa using h10
        have hupd : updateHistory (x :: t0) b = t0 ++ [b] := by
          unfold updateHistory
          simp only [List.cons_append, List.length_cons, List.length_append,
            List.length_singleton]
          rw [if_pos (by omega)]
          rfl
        rw [hupd, ih (t0 ++ [b]) (by simp [ht0])]
        have e1 : (t0 ++ [b]) ++ t = t0 ++ b :: t := by simp
        have e2 : (x :: t0) ++ b :: t = x :: (t0 ++ b :: t) := by simp
        rw [e1, e2]
        have l1 : (t0 ++ b :: t).length = 10 + t.length := by
          simp [ht0]; omega
        have l2 : (x :: (t0 ++ b :: t)).length = 11 + t.length := by
          simp [ht0]; omega
        rw [l1, l2]
        rw [show 11 + t.length - 10 = (10 + t.length - 10) + 1 from by omega,
          List.drop_succ_cons]

/-- A HistoryWindow built from scratch is the last (at most) 10 cycle
results. -/
theorem historyAfter_eq_drop (rs : List Bool) :
    historyAfter rs = rs.drop (rs.length - 10) := by
  simpa using foldl_updateHistory_drop rs [] (by simp)

/-! ## Claims -/

/-- C1: if the monitor is cancelled by a user interrupt while running, the
claim says it emits a final statistics line for every monitored address
before terminating.  The code does not: line 279 installs `signal_handler`
for SIGINT, and that handler exits via `sys.exit(0)` after printing only a
stop message, so the `except KeyboardInterrupt:` final-statistics block
(lines 320–330) is unreachable.  At the failing input — one monitored
address with one completed (successful) cycle — the interrupt emits no
statistics, while the intended final-statistics table would hold the line
`8.8.8.8: 1/1 (100% uptime)`. -/
theorem c1_interrupt_emits_no_final_statistics :
    monitor_final_stats_on_interrupt ["8.8.8.8"] (fun _ => [true]) = [] ∧
      final_statistics ["8.8.8.8"] (fun _ => [true]) =
        [⟨"8.8.8.8", 1, 1, 100⟩] := by
  constructor
  · rfl
  · simp [final_statistics]

/-- C2: an address's HistoryWindow never exceeds 10 entries however many
cycles have completed, eviction is FIFO, and after 15 cycles the window
holds exactly the results of cycles 6 through 15. -/
theorem c2_history_window_capacity (rs : List Bool) :
    (historyAfter rs).length ≤ 10 ∧
      (rs.length = 15 →
        historyAfter rs = rs.drop 5 ∧ (historyAfter rs).length = 10) := by
  refine ⟨?_, fun h15 => ⟨?_, ?_⟩⟩
  · rw [historyAfter_eq_drop, List.length_drop]
    omega
  · rw [historyAfter_eq_drop, h15]
  · rw [historyAfter_eq_drop, List.length_drop, h15]

/-- Witness for C2 at a concrete 15-cycle run: the window keeps exactly the
last ten results. -/
theorem c2_history_window_capacity_witness :
    historyAfter [true, false, true, false, true, false, true, false, true,
        false, true, false, true, false, true] =
      [false, true, false, true, false, true, false, true, false, true] := by
  have h := (c2_history_window_capacity
    [true, false, true, false, true, false, true, false, true,
      false, true, false, true, false, true]).2 (by decide)
  rw [h.1]
  rfl

/-- C3: the parallel scan submits one probe per input list element (duplicate
addresses are not coalesced — the futures dict is keyed by future objects),
collects them in an arbitrary completion order, and returns exactly
`len(addresses)` results: a permutation of one `ping_ip` result per element. -/
theorem c3_scan_one_result_per_element (probe : String → Bool × String)
    (ips : List String) (order : List (Fin ips.length))
    (horder : order.Perm (List.finRange ips.length)) :
    (check_ips_parallel probe ips order).length = ips.length ∧
      (check_ips_parallel probe ips order).Perm (ips.map (ping_ip probe)) := by
  have hmap : (List.finRange ips.length).map (fun i => ping_ip probe (ips.get i))
      = ips.map (ping_ip probe) := by
    rw [show (fun i => ping_ip probe (ips.get i)) = ping_ip probe ∘ ips.get from rfl,
      ← List.map_map, List.finRange_map_get]
  have hperm : (check_ips_parallel probe ips order).Perm (ips.map (ping_ip probe)) :=
    hmap ▸ horder.map (fun i => ping_ip probe (ips.get i))
  exact ⟨hperm.length_eq.trans (by simp), hperm⟩

/-- Witness for C3: a duplicated address probed twice, results collected in
reverse completion order, still two results. -/
theorem c3_scan_one_result_per_element_witness :
    (check_ips_parallel (fun _ => (true, "Alive")) ["8.8.8.8", "8.8.8.8"]
        [⟨1, by decide⟩, ⟨0, by decide⟩]).length = 2 :=
  (c3_scan_one_result_per_element (fun _ => (true, "Alive"))
    ["8.8.8.8", "8.8.8.8"] [⟨1, by decide⟩, ⟨0, by decide⟩] (by decide)).1

/-- C4 counterexample: "10.0.0.0/31" is a valid CIDR, yet `expand` returns
both addresses of the block — including its own network address 10.0.0.0 —
because `IPv4Network.hosts()` does not exclude network/broadcast for /31
(nor /32).  Under the claim the result would have excluded them. -/
theorem c4_counterexample_slash31 :
    expand_ip_range "10.0.0.0/31" = ["10.0.0.0", "10.0.0.1"] ∧
      ipToString (167772160 - 167772160 % 2 ^ (32 - 31)) = "10.0.0.0" ∧
      "10.0.0.0" ∈ expand_ip_range "10.0.0.0/31" := by
  refine ⟨by rfl, by rfl, ?_⟩
  rw [show expand_ip_range "10.0.0.0/31" = ["10.0.0.0", "10.0.0.1"] from rfl]
  simp

/-- C4 (amended): for every CIDR whose prefix length is at most 30, `expand`
returns exactly the host addresses — every address strictly between the
network and broadcast addresses of the enclosing block, `2^(32-p) - 2` of
them, in ascending numeric order; in particular every /24 yields 254.
(For /31 and /32 the library returns all addresses of the block instead.) -/
theorem c4_cidr_hosts_amended (a p : Nat) (hp : p ≤ 30) :
    (cidrHosts a p).length = 2 ^ (32 - p) - 2 ∧
      List.Pairwise (· < ·) (cidrHosts a p) ∧
      (∀ x, x ∈ cidrHosts a p ↔
        a - a % 2 ^ (32 - p) < x ∧
          x < a - a % 2 ^ (32 - p) + (2 ^ (32 - p) - 1)) ∧
      (p = 24 → (cidrHosts a p).length = 254) := by
  have hblock : 4 ≤ 2 ^ (32 - p) := by
    calc (4 : Nat) = 2 ^ 2 := by norm_num
    _ ≤ 2 ^ (32 - p) := Nat.pow_le_pow_right (by norm_num) (by omega)
  have hcidr : cidrHosts a p =
      (List.range (2 ^ (32 - p) - 2)).map
        (fun i => a - a % 2 ^ (32 - p) + 1 + i) := by
    unfold cidrHosts
    rw [if_neg (by omega)]
  refine ⟨by simp [hcidr], ?_, ?_, ?_⟩
  · rw [hcidr]
    exact (List.pairwise_lt_range _).map _ (fun i j hij => by omega)
  · intro x
    rw [hcidr]
    simp only [List.mem_map, List.mem_range]
    constructor
    · rintro ⟨i, hi, rfl⟩
      omega
    · rintro ⟨h1, h2⟩
      exact ⟨x - (a - a % 2 ^ (32 - p) + 1), by omega, by omega⟩
  · intro hp24
    subst hp24
    simp [hcidr]

/-- Witness for C4 (amended) at 192.168.1.0/24: 254 host addresses. -/
theorem c4_cidr_hosts_amended_witness :
    (cidrHosts 3232235776 24).length = 254 :=
  (c4_cidr_hosts_amended 3232235776 24 (by norm_num)).2.2.2 rfl

/-- C5 counterexample: "255.255.255.255-255.255.255.255" is a valid range
with start ≤ end, so the claim demands a one-element result; but the loop's
final `current += 1` overflows past 2^32, `IPv4Address` raises, and
`expand_ip_range` returns the empty list. -/
theorem c5_counterexample_top_of_range :
    parseIPv4 "255.255.255.255" = some 4294967295 ∧
      expand_ip_range "255.255.255.255-255.255.255.255" = [] := by
  constructor
  · rfl
  · rfl

/-- C5 (amended): a valid range `start-end` with `start ≤ end` expands to
`end - start + 1` addresses, ascending by integer increment with no gaps or
duplicates, starting at `start` and ending at `end` — provided `end` is not
255.255.255.255 (there the loop's final increment overflows past 2^32,
`IPv4Address` raises, and the function reports an ExpansionError instead). -/
theorem c5_range_expansion_amended (s : String) (a b : Nat)
    (hslash : s.data.contains '/' = false) (hdash : s.data.contains '-' = true)
    (ha : parseIPv4Chars (rangeStartStr s) = some a)
    (hb : parseIPv4Chars (rangeEndStr s) = some b)
    (hab : a ≤ b) (htop : b < 4294967295) :
    ∃ l, expandCore s = .ok l ∧ expand_ip_range s = l ∧
      l.length = b - a + 1 ∧
      (∀ i, i < b + 1 - a → l[i]? = some (ipToString (a + i))) := by
  have hcore : expandCore s =
      .ok ((List.range (b + 1 - a)).map (fun i => ipToString (a + i))) := by
    unfold expandCore
    rw [hslash, hdash]
    simp only [Bool.false_eq_true, if_false, if_true, ha, hb]
    rw [if_neg (by omega), if_neg (by omega)]
  refine ⟨_, hcore, by simp [expand_ip_range, hcore], by simp; omega, ?_⟩
  intro i hi
  simp [List.getElem?_map, List.getElem?_range, hi]

/-- Witness for C5 (amended) at "10.0.0.1-10.0.0.3". -/
theorem c5_range_expansion_amended_witness :
    ∃ l, expandCore "10.0.0.1-10.0.0.3" = .ok l ∧
      expand_ip_range "10.0.0.1-10.0.0.3" = l ∧
      l.length = 167772163 - 167772161 + 1 ∧
      (∀ i, i < 167772163 + 1 - 167772161 →
        l[i]? = some (ipToString (167772161 + i))) :=
  c5_range_expansion_amended "10.0.0.1-10.0.0.3" 167772161 167772163
    (by rfl) (by rfl) (by rfl) (by rfl) (by norm_num) (by norm_num)

/-- C6: a range spec (contains "-", no "/") whose start or end fails to
parse as an IPv4 address, or whose start numerically exceeds its end, makes
the try body raise — an ExpansionError — so no address list is returned. -/
theorem c6_range_error_cases (s : String)
    (hslash : s.data.contains '/' = false) (hdash : s.data.contains '-' = true) :
    ((parseIPv4Chars (rangeStartStr s) = none ∨
        parseIPv4Chars (rangeEndStr s) = none) →
      ∃ e, expandCore s = .error e ∧ expand_ip_range s = []) ∧
      (∀ a b, parseIPv4Chars (rangeStartStr s) = some a →
        parseIPv4Chars (rangeEndStr s) = some b → b < a →
        ∃ e, expandCore s = .error e ∧ expand_ip_range s = []) := by
  constructor
  · intro hbad
    have hcore : expandCore s = .error "invalid address in range" := by
      unfold expandCore
      rw [hslash, hdash]
      simp only [Bool.false_eq_true, if_false, if_true]
      rcases hbad with h | h
      · rw [h]
      · rcases hstart : parseIPv4Chars (rangeStartStr s) with _ | a
        · rfl
        · rw [h]
    exact ⟨_, hcore, by simp [expand_ip_range, hcore]⟩
  · intro a b ha hb hba
    have hcore : expandCore s = .error "start IP is greater than end IP" := by
      unfold expandCore
      rw [hslash, hdash]
      simp only [Bool.false_eq_true, if_false, if_true, ha, hb]
      rw [if_pos hba]
    exact ⟨_, hcore, by simp [expand_ip_range, hcore]⟩

/-- Witness for C6 at "10.0.0.5-10.0.0.1" (start exceeds end). -/
theorem c6_range_error_cases_witness :
    ∃ e, expandCore "10.0.0.5-10.0.0.1" = .error e ∧
      expand_ip_range "10.0.0.5-10.0.0.1" = [] :=
  (c6_range_error_cases "10.0.0.5-10.0.0.1" (by rfl) (by rfl)).2
    167772165 167772161 (by rfl) (by rfl) (by norm_num)

/-- C7: summarize rejects an empty ResultSet (early return, no summary) and
never divides by zero — whenever a summary is produced its total is
positive; on every non-empty ResultSet the summary holds
`success_rate = alive_count / total_count * 100` with
`alive_count` the number of reachable results and `total_count` the size of
the ResultSet. -/
theorem c7_summarize_empty_rejected :
    (∀ ss, (print_results [] ss).2 = none) ∧
      (∀ rs ss s, (print_results rs ss).2 = some s → 0 < s.total_count) ∧
      (∀ rs : List ProbeResult, rs ≠ [] →
        ∃ s, (print_results rs true).2 = some s ∧
          s.alive_count = (rs.filter (fun r => r.alive)).length ∧
          s.total_count = rs.length ∧
          s.success_rate = (s.alive_count : ℚ) / (s.total_count : ℚ) * 100) := by
  have hfilter : ∀ rs : List ProbeResult,
      ((sortResults rs).filter (fun r => r.alive)).length =
        (rs.filter (fun r => r.alive)).length :=
    fun rs => ((List.perm_insertionSort addrLe rs).filter _).length_eq
  refine ⟨fun ss => rfl, ?_, ?_⟩
  · intro rs ss s hs
    match rs with
    | [] => simp [print_results] at hs
    | r :: t =>
      rw [print_results] at hs
      simp only [List.isEmpty_cons, if_false, Bool.false_eq_true] at hs
      cases ss with
      | false => simp at hs
      | true =>
        simp only [if_true] at hs
        rw [Option.some.injEq] at hs
        rw [← hs]
        simp
  · intro rs hne
    have hemp : rs.isEmpty = false := by
      simpa [List.isEmpty_iff] using hne
    refine ⟨⟨((sortResults rs).filter (fun r => r.alive)).length, rs.length,
      (((sortResults rs).filter (fun r => r.alive)).length : ℚ) /
        (rs.length : ℚ) * 100⟩, ?_, hfilter rs, rfl, rfl⟩
    rw [print_results]
    simp [hemp]

/-- Witness for C7 at a one-element ResultSet. -/
theorem c7_summarize_empty_rejected_witness :
    ∃ s, (print_results [⟨"8.8.8.8", true, "Alive"⟩] true).2 = some s ∧
      s.alive_count =
        (([⟨"8.8.8.8", true, "Alive"⟩] : List ProbeResult).filter
          (fun r => r.alive)).length ∧
      s.total_count = ([⟨"8.8.8.8", true, "Alive"⟩] : List ProbeResult).length ∧
      s.success_rate = (s.alive_count : ℚ) / (s.total_count : ℚ) * 100 :=
  c7_summarize_empty_rejected.2.2 [⟨"8.8.8.8", true, "Alive"⟩] (by simp)

/-- C8 counterexample: `print_results` sorts the caller's list in place
(line 221), so after the call the caller's ResultSet is reordered — here the
two results swap places — contradicting "the caller's ResultSet is
unchanged". -/
theorem c8_counterexample_in_place_sort :
    (print_results [⟨"9.9.9.9", true, "Alive"⟩, ⟨"1.1.1.1", false, "Not reachable"⟩]
        true).1 =
      [⟨"1.1.1.1", false, "Not reachable"⟩, ⟨"9.9.9.9", true, "Alive"⟩] ∧
      (print_results [⟨"9.9.9.9", true, "Alive"⟩, ⟨"1.1.1.1", false, "Not reachable"⟩]
        true).1 ≠
      [⟨"9.9.9.9", true, "Alive"⟩, ⟨"1.1.1.1", false, "Not reachable"⟩] := by
  constructor
  · rfl
  · decide

/-- C8 (amended): the summary itself is a pure function of the ResultSet,
but the call's one side effect on the caller is the in-place sort: after the
call the caller's list is a permutation of the input, sorted by address,
with every ProbeResult preserved (same multiplicities — nothing added,
removed or modified). -/
theorem c8_sort_in_place_amended (rs : List ProbeResult) (ss : Bool) :
    ((print_results rs ss).1).Perm rs ∧
      List.Sorted addrLe (print_results rs ss).1 ∧
      (∀ r : ProbeResult, ((print_results rs ss).1).count r = rs.count r) := by
  have hperm : ((print_results rs ss).1).Perm rs := by
    rw [print_results]
    by_cases h : rs.isEmpty
    · simp [h]
    · simp only [h, Bool.false_eq_true, if_false]
      exact List.perm_insertionSort addrLe rs
  refine ⟨hperm, ?_, fun r => hperm.count_eq r⟩
  rw [print_results]
  by_cases h : rs.isEmpty
  · have : rs = [] := List.isEmpty_iff.mp h
    simp [h, this]
  · simp only [h, Bool.false_eq_true, if_false]
    exact List.sorted_insertionSort addrLe rs

/-- C10: a CIDR whose host bits are nonzero is not rejected — strict=False
clears the host bits — and it expands to the host addresses of the
enclosing network, exactly what the zeroed network address yields:
clearing host bits is idempotent, and concretely 192.168.1.5/24 expands to
the same 254 addresses as 192.168.1.0/24. -/
theorem c10_nonzero_host_bits_accepted :
    (∀ a p : Nat, cidrHosts a p = cidrHosts (a - a % 2 ^ (32 - p)) p) ∧
      (∃ l, expandCore "192.168.1.5/24" = .ok l) ∧
      expand_ip_range "192.168.1.5/24" = expand_ip_range "192.168.1.0/24" := by
  refine ⟨?_, ⟨_, rfl⟩, by rfl⟩
  intro a p
  have hdm := Nat.div_add_mod a (2 ^ (32 - p))
  have hdvd : a - a % 2 ^ (32 - p) = 2 ^ (32 - p) * (a / 2 ^ (32 - p)) := by
    omega
  have hmod : (a - a % 2 ^ (32 - p)) % 2 ^ (32 - p) = 0 := by
    rw [hdvd]
    exact Nat.mul_mod_right _ _
  unfold cidrHosts
  simp only [hmod, Nat.sub_zero]

/-- C9: `expand_ip_range` is total on arbitrary input strings: the
definition terminates on every input and yields a list of strings; every
exception the try body raises (`.error`) is caught and converted to the
empty list rather than propagated, and every successful expansion is
returned as-is. -/
theorem c9_expand_ip_range_total (s : String) :
    (∀ e, expandCore s = .error e → expand_ip_range s = []) ∧
      (∀ l, expandCore s = .ok l → expand_ip_range s = l) := by
  constructor
  · intro e he
    simp [expand_ip_range, he]
  · intro l hl
    simp [expand_ip_range, hl]

/-- Witness for C9: a string that is none of the three shapes parses to an
error inside the try body and comes back as the empty list. -/
theorem c9_expand_ip_range_total_witness : expand_ip_range "zzz" = [] :=
  (c9_expand_ip_range_total "zzz").1 "invalid address" (by rfl)
